import Mathlib

/-!
Verification of the ZeroMQ RPC transport of openstack/oslo-incubator.

The definitions below are a shallow embedding of the Python sources
`openstack/common/rpc/impl_zmq.py` and
`openstack/common/rpc/matchmaker_redis.py`.  Pure fragments become Lean
functions; stateful fragments thread explicit state; fallible fragments
return `Except`.  Each definition carries a comment pointing at the
function it embeds.
-/

namespace OsloZmq

/-- Error taxonomy of the transport, mirroring the exceptions raised in
`impl_zmq.py` (`RPCException`, `rpc_common.Timeout`, remote errors, and
Python-level `IndexError` / `TypeError`). -/
inductive RpcErr where
  | rpcException (msg : String)
  | timeout (msg : String)
  | remoteError
  | indexError
  | typeError
deriving DecidableEq, Repr

/-! ### JSON data model

Payloads carried by the transport are JSON-representable Python values.
Numbers are modelled as integers (floating point is out of scope of the
shallow embedding). -/

/-- A JSON-representable value: the payloads `jsonutils` can encode.
Objects are modelled as ordered association lists. -/
inductive Json where
  | null
  | bool (b : Bool)
  | num (n : Int)
  | str (s : String)
  | arr (elems : List Json)
  | obj (fields : List (String × Json))

/-! ### Socket wrapper (`ZmqSocket`, impl_zmq.py lines 106-208) -/

/-- ZeroMQ socket kinds named in `ZmqSocket.socket_s`. -/
inductive ZmqType where
  | push | pull | pub | sub | rep | req | router | dealer
deriving DecidableEq, Repr

/-- `self.can_recv = zmq_type in (zmq.PULL, zmq.SUB)` (line 121). -/
def can_recv : ZmqType → Bool
  | .pull => true
  | .sub => true
  | _ => false

/-- `self.can_send = zmq_type in (zmq.PUSH, zmq.PUB)` (line 122). -/
def can_send : ZmqType → Bool
  | .push => true
  | .pub => true
  | _ => false

/-- `self.can_sub = zmq_type in (zmq.SUB, )` (line 123). -/
def can_sub : ZmqType → Bool
  | .sub => true
  | _ => false

/-- State of a `ZmqSocket` wrapper: address, kind, and the
`self.subscriptions` list (a Python list, so duplicates are possible). -/
structure ZmqSocket where
  addr : String
  typ : ZmqType
  subscriptions : List String
deriving DecidableEq, Repr

/-- Transport-level operations a socket wrapper can perform on the raw
socket.  A failed capability check performs none of them. -/
inductive SockOp where
  | sentMultipart (data : List String)
  | receivedMultipart
deriving DecidableEq, Repr

/-- `ZmqSocket.recv` (lines 200-203): raise `RPCException` unless the kind
can receive, otherwise perform the transport receive. -/
def ZmqSocket.recv (s : ZmqSocket) : Except RpcErr (List SockOp) :=
  if can_recv s.typ then .ok [.receivedMultipart]
  else .error (.rpcException "You cannot recv on this socket.")

/-- `ZmqSocket.send` (lines 205-208): raise `RPCException` unless the kind
can send, otherwise perform the transport send. -/
def ZmqSocket.send (s : ZmqSocket) (data : List String) : Except RpcErr (List SockOp) :=
  if can_send s.typ then .ok [.sentMultipart data]
  else .error (.rpcException "You cannot send on this socket.")

/-- `ZmqSocket.subscribe` (lines 156-167): raise unless the kind can
subscribe, then `setsockopt(SUBSCRIBE)` and unconditionally append the
filter to `self.subscriptions`. -/
def ZmqSocket.subscribe (s : ZmqSocket) (msg_filter : String) : Except RpcErr ZmqSocket :=
  if can_sub s.typ then
    .ok { s with subscriptions := s.subscriptions ++ [msg_filter] }
  else
    .error (.rpcException "Cannot subscribe on this socket.")

/-- `ZmqSocket.unsubscribe` (lines 169-174): return unchanged when the
filter is not in `self.subscriptions`, otherwise `setsockopt(UNSUBSCRIBE)`
and remove the first occurrence (`list.remove`).  No kind check is made. -/
def ZmqSocket.unsubscribe (s : ZmqSocket) (msg_filter : String) : ZmqSocket :=
  if msg_filter ∈ s.subscriptions then
    { s with subscriptions := s.subscriptions.erase msg_filter }
  else s

/-! ### Consumer dispatch (`ConsumerBase.process`, impl_zmq.py lines 323-341) -/

/-- The decoded payload mapping handed to `ConsumerBase.process`.  Outer
`Option` on `version` / `args` records whether the key is present at all
(`dict.setdefault` distinguishes the two). -/
structure MsgData where
  version : Option (Option Json) := none
  args : Option (List (String × Json)) := none
  method : Option String := none

/-- Observable outcome of one `ConsumerBase.process` step. -/
inductive ProcessAction where
  | logNoMethod
  | privateReply (args : List (String × Json))
  | dispatch (version : Option Json) (method : String) (args : List (String × Json))

/-- The two `data.setdefault` calls opening `ConsumerBase.process`
(lines 324-325): a missing `version` becomes `None`, missing `args`
become `{}`.  The dict is mutated in place, so the result is returned. -/
def setdefaults (d : MsgData) : MsgData :=
  { d with version := some (d.version.getD none), args := some (d.args.getD []) }

/-- `ConsumerBase.process` (lines 323-341): default missing fields, log an
error and stop when the method is missing or falsy, route the exact method
`"-reply"` to the private context, and dispatch everything else to the
application proxy.  Returns the action taken and the (mutated) data. -/
def process (d : MsgData) : ProcessAction × MsgData :=
  let d2 := setdefaults d
  match d.method with
  | none => (.logNoMethod, d2)
  | some m =>
    if m = "" then (.logNoMethod, d2)
    else if m = "-reply" then (.privateReply (d2.args.getD []), d2)
    else (.dispatch (d2.version.getD none) m (d2.args.getD []), d2)

/-! ### `_multi_send` and the public entry points (impl_zmq.py lines 681-739) -/

/-- The send primitive `_multi_send` is given: `_cast` is spawned in a
green thread, `_call` is invoked synchronously. -/
inductive SendMethod where
  | castM | callM
deriving DecidableEq, Repr

/-- One send action issued by `_multi_send` towards a resolved endpoint. -/
inductive MSAction where
  | spawnCast (addr : String) (topic : String)
  | syncCall (addr : String) (topic : String)
deriving DecidableEq, Repr

/-- `"tcp://%s:%s" % (ip_addr, conf.rpc_zmq_port)` (line 704). -/
def mkAddr (ip : String) (port : Nat) : String :=
  "tcp://" ++ ip ++ ":" ++ toString port

/-- `_multi_send` (lines 681-712): ask the matchmaker for the resolved
`(topic, host)` queues, raise `Timeout` when there are none, then loop
over the queues.  The Python loop body ends in `return` on both branches,
so only the first queue is ever sent to; that early return is preserved
here.  The result lists the send actions issued. -/
def _multi_send (port : Nat) (queues : List (String × String))
    (method : SendMethod) : Except RpcErr (List MSAction) :=
  match queues with
  | [] => .error (.timeout "No match from matchmaker.")
  | (t, ip_addr) :: _rest =>
    -- first iteration of `for queue in queues`; both branches return
    let _addr := mkAddr ip_addr port
    match method with
    | .castM => .ok [.spawnCast _addr t]
    | .callM => .ok [.syncCall _addr t]

/-- `cast` (lines 730-732): `_multi_send(_cast, ...)`.  The matchmaker is
the pluggable `queues` function. -/
def cast (queues : String → List (String × String)) (port : Nat)
    (topic : String) : Except RpcErr (List MSAction) :=
  _multi_send port (queues topic) .castM

/-- `multicall` (lines 719-721): `_multi_send(_call, ...)`. -/
def multicall (queues : String → List (String × String)) (port : Nat)
    (topic : String) : Except RpcErr (List MSAction) :=
  _multi_send port (queues topic) .callM

/-- `call` (lines 724-727): `_multi_send(_call, ...)` and then index the
result; the sends issued are those of `_multi_send`. -/
def call (queues : String → List (String × String)) (port : Nat)
    (topic : String) : Except RpcErr (List MSAction) :=
  _multi_send port (queues topic) .callM

/-- `fanout_cast` (lines 735-739): prefix the topic with `fanout~` and
`_multi_send(_cast, ...)`. -/
def fanout_cast (queues : String → List (String × String)) (port : Nat)
    (topic : String) : Except RpcErr (List MSAction) :=
  _multi_send port (queues ("fanout~" ++ topic)) .castM

/-! ### Reply handling in `_call` / `call` / `multicall`
(impl_zmq.py lines 670-678, 719-727) -/

/-- `isinstance(resp, types.DictType) and 'exc' in resp` (line 675). -/
def hasRemoteExc : Json → Bool
  | .obj fields => fields.any (fun kv => kv.1 == "exc")
  | _ => false

/-- Tail of `_call` (lines 674-678): scan the received reply sequence for
remote exceptions, re-raising the first one, then return
`responses[-1]` - the last element (IndexError on an empty sequence). -/
def callRepliesReturn (responses : List Json) : Except RpcErr Json :=
  match responses.find? hasRemoteExc with
  | some _ => .error .remoteError
  | none =>
    match responses.getLast? with
    | some v => .ok v
    | none => .error .indexError

/-- `multicall` returns the value produced by `_call` unchanged
(line 721 with line 711-712 of `_multi_send`). -/
def multicallReturn (responses : List Json) : Except RpcErr Json :=
  callRepliesReturn responses

/-- Python `x[-1]` on a JSON value: last element of a list, last
character of a string, `TypeError` otherwise. -/
def pyLastIndex : Json → Except RpcErr Json
  | .arr xs =>
    match xs.getLast? with
    | some v => .ok v
    | none => .error .indexError
  | .str s =>
    match s.data.getLast? with
    | some c => .ok (.str (String.mk [c]))
    | none => .error .indexError
  | _ => .error .typeError

/-- `call` (lines 724-727): `data = _multi_send(_call, ...)` then
`return data[-1]`. -/
def callReturn (responses : List Json) : Except RpcErr Json :=
  match multicallReturn responses with
  | .ok v => pyLastIndex v
  | .error e => .error e

/-! ### Local topic relay (`ZmqProxy.consume`, impl_zmq.py lines 430-489) -/

/-- The four-part frame `(msg_id, topic, style, in_msg)` read by the
proxy (line 435). -/
structure Frame where
  msg_id : String
  topic : String
  style : String
  body : String
deriving DecidableEq, Repr

/-- Everything up to the first occurrence of `sep`:
Python `s.split(sep, 1)[0]`. -/
def splitHead (sep : Char) : List Char → List Char
  | [] => []
  | c :: cs => if c = sep then [] else c :: splitHead sep cs

/-- Python `s.split(sep, 1)[0]` on strings. -/
def pySplitFirst (sep : Char) (s : String) : String :=
  String.mk (splitHead sep s.data)

/-- Everything after the first occurrence of `sep`, or `none` when `sep`
does not occur: Python `s.split(sep, 1)[1]` (IndexError when `none`). -/
def splitTailAfter (sep : Char) : List Char → Option (List Char)
  | [] => none
  | c :: cs => if c = sep then some cs else splitTailAfter sep cs

/-- Python `s.split(sep, 1)[1]` on strings, `none` for IndexError. -/
def pySplitSecond (sep : Char) (s : String) : Option String :=
  (splitTailAfter sep s.data).map String.mk

/-- `eventlet.queue.LightQueue(maxsize).put_nowait`: unbounded when
`maxsize` is `None` or not positive; otherwise append when below
capacity and raise `Full` (here `none`) when at capacity. -/
def lightQueuePut (maxsize : Option Int) (q : List Frame) (x : Frame) :
    Option (List Frame) :=
  match maxsize with
  | none => some (q ++ [x])
  | some k =>
    if k ≤ 0 then some (q ++ [x])
    else if (q.length : Int) < k then some (q ++ [x])
    else none

/-- Log events recorded by the proxy; `errorBacklogFull` is the
error-level entry of lines 487-489, naming the topic. -/
inductive ProxyLog where
  | errorBacklogFull (topic : String)
deriving DecidableEq, Repr

/-- State of a `ZmqProxy`: the `topic_proxy` map from routing key to the
backlog queue of that topic, plus the log. -/
structure ProxyState where
  topicProxy : List (String × List Frame) := []
  log : List ProxyLog := []
deriving DecidableEq, Repr

/-- Association-list lookup, keyed on the first occurrence. -/
def alistLookup {α : Type} (k : String) : List (String × α) → Option α
  | [] => none
  | (k2, v) :: rest => if k2 = k then some v else alistLookup k rest

/-- Association-list update (insert at the end when absent). -/
def alistSet {α : Type} (k : String) (v : α) : List (String × α) → List (String × α)
  | [] => [(k, v)]
  | (k2, v2) :: rest =>
    if k2 = k then (k, v) :: rest else (k2, v2) :: alistSet k v rest

/-- `ZmqProxy.consume` (lines 430-489), restricted to its queue effects:
extract the routing key (`topic.split('.', 1)[0]`), lazily create the
per-topic queue (the publisher green thread and the IPC socket it drains
to are concurrency and are not modelled; per the claim scenario the queue
is never drained), then `put_nowait` the frame - on `Full` the frame is
dropped and an error-level entry naming the topic is logged.  The
function is total: the receive loop is never blocked. -/
def proxyConsume (backlog : Option Int) (st : ProxyState) (f : Frame) : ProxyState :=
  let topic := pySplitFirst '.' f.topic
  let st1 :=
    match alistLookup topic st.topicProxy with
    | some _ => st
    | none => { st with topicProxy := alistSet topic [] st.topicProxy }
  match alistLookup topic st1.topicProxy with
  | some q =>
    match lightQueuePut backlog q f with
    | some q2 => { st1 with topicProxy := alistSet topic q2 st1.topicProxy }
    | none => { st1 with log := st1.log ++ [.errorBacklogFull topic] }
  | none => st1

/-! ### Redis matchmaker (`matchmaker_redis.py`) -/

/-- Model of the Redis store used by `MatchMakerRedis`: plain keys with
an optional pending TTL (`none` = no expiry set), and sets.  Sets are
modelled as insertion-ordered duplicate-free lists; the claims rely only
on membership. -/
structure RedisState where
  kv : List (String × Option Int) := []
  sets : List (String × List String) := []
deriving DecidableEq, Repr

/-- Remove a key from an association list. -/
def alistRemove {α : Type} (k : String) : List (String × α) → List (String × α)
  | [] => []
  | (k2, v) :: rest =>
    if k2 = k then alistRemove k rest else (k2, v) :: alistRemove k rest

/-- Redis `TTL`: `-1` when the key does not exist or has no expiry set.
This is the semantics of the redis servers contemporary with this code
(pre-2.8), which `MatchMakerRedis.is_alive` relies on via its
`ttl(host) == -1` test. -/
def redisTtl (st : RedisState) (k : String) : Int :=
  match alistLookup k st.kv with
  | none => -1
  | some none => -1
  | some (some t) => t

/-- Redis `SET key ''`: store the key; any previous TTL is cleared. -/
def redisSet (st : RedisState) (k : String) : RedisState :=
  { st with kv := alistSet k none st.kv }

/-- Redis `EXPIRE key t`: arm a TTL when the key exists and report
whether it did. -/
def redisExpire (st : RedisState) (k : String) (t : Int) : RedisState × Bool :=
  match alistLookup k st.kv with
  | none => (st, false)
  | some _ => ({ st with kv := alistSet k (some t) st.kv }, true)

/-- Redis `DEL key`. -/
def redisDel (st : RedisState) (k : String) : RedisState :=
  { st with kv := alistRemove k st.kv }

/-- Redis `SMEMBERS key` (an absent set is empty). -/
def redisSmembers (st : RedisState) (k : String) : List String :=
  (alistLookup k st.sets).getD []

/-- Redis `SADD key m`. -/
def redisSadd (st : RedisState) (k : String) (m : String) : RedisState :=
  let cur := redisSmembers st k
  if m ∈ cur then st
  else { st with sets := alistSet k (cur ++ [m]) st.sets }

/-- Redis `SREM key m`. -/
def redisSrem (st : RedisState) (k : String) (m : String) : RedisState :=
  { st with sets := alistSet k ((redisSmembers st k).erase m) st.sets }

/-- Environment step: the TTL of `k` elapses, so redis drops the key.
This is the "liveness key has expired" event of the spec. -/
def redisKeyExpires (st : RedisState) (k : String) : RedisState :=
  redisDel st k

/-- `MatchMakerRedis.ack_alive` (matchmaker_redis.py lines 104-105):
renew the freshness TTL of `key` to the configured heartbeat TTL. -/
def ack_alive (ttlConf : Int) (st : RedisState) (key : String) : RedisState × Bool :=
  redisExpire st key ttlConf

/-- `MatchMakerRedis.expire` (lines 113-118): one pipeline deleting the
liveness key and removing the member from the topic set. -/
def mmExpire (st : RedisState) (topic : String) (host : String) : RedisState :=
  redisSrem (redisDel st host) topic host

/-- `MatchMakerRedis.is_alive` (lines 107-111): stale when
`ttl(host) == -1`, in which case the host is evicted as a side effect;
`host` here is the full member name `topic.host` as passed by the
exchanges. -/
def is_alive (st : RedisState) (topic : String) (host : String) : Bool × RedisState :=
  if redisTtl st host = -1 then (false, mmExpire st topic host)
  else (true, st)

/-- `MatchMakerRedis.backend_register` (lines 127-137): one pipeline
adding set membership and creating the bare liveness key. -/
def backend_register (st : RedisState) (key : String) (key_host : String) : RedisState :=
  redisSet (redisSadd st key key_host) key_host

/-- Modelled from the spec: `HeartbeatMatchMakerBase.register`
(openstack/common/rpc/matchmaker.py is not under src/).  Per the spec's
heartbeating sub-contract, registration "adds membership and (re)asserts
freshness": membership is stored under the topic with member name
`topic + '.' + host` via `backend_register`, and the freshness TTL is
then renewed via `ack_alive`. -/
def mmRegister (ttlConf : Int) (st : RedisState) (key : String) (host : String) : RedisState :=
  let key_host := key ++ "." ++ host
  (ack_alive ttlConf (backend_register st key key_host) key_host).1

/-- Loop body of `RedisTopicExchange.run` (lines 57-71), with explicit
fuel for the `while True`.  `choose` stands for `srandmember`; each
`continue` follows an eviction, so the set shrinks and the initial fuel
of `|members| + 1` always suffices for a faithful `choose`. -/
def topicExchangeLoop (choose : List String → Option String) (topic : String) :
    Nat → RedisState → Except RpcErr (List (String × String) × RedisState)
  | 0, _ => .error (.rpcException "fuel exhausted")
  | fuel + 1, st =>
    match choose (redisSmembers st topic) with
    | none => .ok ([], st)
    | some member_name =>
      let r := is_alive st topic member_name
      if r.1 then
        match pySplitSecond '.' member_name with
        | some host => .ok ([(member_name, host)], r.2)
        | none => .error .indexError
      else topicExchangeLoop choose topic fuel r.2

/-- `RedisTopicExchange.run` (lines 57-71). -/
def topicExchangeRun (choose : List String → Option String) (st : RedisState)
    (topic : String) : Except RpcErr (List (String × String) × RedisState) :=
  topicExchangeLoop choose topic ((redisSmembers st topic).length + 1) st

/-- `filter(lambda host: self.matchmaker.is_alive(topic, host), hosts)`
(lines 82-83), threading the eviction side effects left to right. -/
def fanoutFilterAlive (topic : String) : List String → RedisState → (List String × RedisState)
  | [], st => ([], st)
  | h :: rest, st =>
    let r := is_alive st topic h
    let out := fanoutFilterAlive topic rest r.2
    (if r.1 then h :: out.1 else out.1, out.2)

/-- `map(lambda x: x.split('.', 1)[1], good_hosts)` (line 85); `none`
models the IndexError on a member without a dot. -/
def mapSplitSecond : List String → Option (List String)
  | [] => some []
  | h :: rest =>
    match pySplitSecond '.' h with
    | none => none
    | some a => (mapSplitSecond rest).map (a :: ·)

/-- `RedisFanoutExchange.run` (lines 79-86): strip the `fanout~` prefix,
read the full membership, filter it by liveness, and zip the *unfiltered*
membership with the addresses of the live members (the `zip(hosts,
addresses)` of line 86). -/
def fanoutExchangeRun (st : RedisState) (ftopic : String) :
    Except RpcErr (List (String × String) × RedisState) :=
  match pySplitSecond '~' ftopic with
  | none => .error .indexError
  | some topic =>
    let hosts := redisSmembers st topic
    let out := fanoutFilterAlive topic hosts st
    match mapSplitSecond out.1 with
    | none => .error .indexError
    | some addresses => .ok (hosts.zip addresses, out.2)

/-! ### Wire envelope codec (`_serialize` / `_deserialize`,
impl_zmq.py lines 85-103)

`jsonutils.dumps` / `jsonutils.loads` live in
`openstack/common/jsonutils.py`, which is not under src/; the codec below
is modelled from the spec: a JSON text encoding that succeeds for every
JSON-representable structure, with `deserialize` its inverse, and a
serialization error (the re-raised `TypeError`) on non-representable
values. -/

/-- The `{` character (written by code point). -/
def lbrace : Char := Char.ofNat 123

/-- The `}` character (written by code point). -/
def rbrace : Char := Char.ofNat 125

/-- The `"` character. -/
def quoteChar : Char := Char.ofNat 34

/-- The `\` character. -/
def backslashChar : Char := Char.ofNat 92

/-- Hexadecimal digit for a value below 16 (lower case letters). -/
def hexDigitChar (n : Nat) : Char :=
  if n < 10 then Char.ofNat (48 + n) else Char.ofNat (87 + n)

/-- Value of a hexadecimal digit character. -/
def hexVal (c : Char) : Option Nat :=
  if 48 ≤ c.toNat ∧ c.toNat ≤ 57 then some (c.toNat - 48)
  else if 97 ≤ c.toNat ∧ c.toNat ≤ 102 then some (c.toNat - 87)
  else if 65 ≤ c.toNat ∧ c.toNat ≤ 70 then some (c.toNat - 55)
  else none

/-- JSON string escaping of one character: quote and backslash get a
backslash escape, control characters a `\u00XX` escape, everything else
is emitted verbatim. -/
def escChar (c : Char) : List Char :=
  if c = quoteChar then [backslashChar, quoteChar]
  else if c = backslashChar then [backslashChar, backslashChar]
  else if c.toNat < 32 then
    [backslashChar, 'u', '0', '0', hexDigitChar (c.toNat / 16), hexDigitChar (c.toNat % 16)]
  else [c]

/-- JSON string escaping of a character sequence. -/
def escStr : List Char → List Char
  | [] => []
  | c :: cs => escChar c ++ escStr cs

/-- Decimal digit character. -/
def digitChar (n : Nat) : Char := Char.ofNat (48 + n)

/-- Decimal digit test. -/
def isDigitChar (c : Char) : Bool := 48 ≤ c.toNat && c.toNat ≤ 57

/-- The continuation after a rendered number must not begin with a digit
(the greedy number scan would otherwise consume it). -/
def headNotDigit : List Char → Prop
  | [] => True
  | c :: _ => isDigitChar c = false

/-- Decimal digits of a natural number, most significant first. -/
def natDigits (n : Nat) : List Char :=
  if n < 10 then [digitChar n]
  else natDigits (n / 10) ++ [digitChar (n % 10)]
termination_by n
decreasing_by exact Nat.div_lt_self (by omega) (by omega)

/-- Decimal rendering of an integer. -/
def intChars : Int → List Char
  | .ofNat n => natDigits n
  | .negSucc m => '-' :: natDigits (m + 1)

/-- The keyword `null` as characters. -/
def kwNull : List Char := ['n', 'u', 'l', 'l']

/-- The keyword `true` as characters. -/
def kwTrue : List Char := ['t', 'r', 'u', 'e']

/-- The keyword `false` as characters. -/
def kwFalse : List Char := ['f', 'a', 'l', 's', 'e']

mutual

/-- JSON text encoding of a value (no insignificant whitespace). -/
def encVal : Json → List Char
  | .null => kwNull
  | .bool true => kwTrue
  | .bool false => kwFalse
  | .num i => intChars i
  | .str s => quoteChar :: (escStr s.data ++ [quoteChar])
  | .arr xs => '[' :: encElemsFirst xs
  | .obj fs => lbrace :: encMembersFirst fs

/-- Array elements with closing bracket, first element. -/
def encElemsFirst : List Json → List Char
  | [] => [']']
  | x :: xs => encVal x ++ encElemsTail xs

/-- Array elements with closing bracket, after an element. -/
def encElemsTail : List Json → List Char
  | [] => [']']
  | x :: xs => ',' :: (encVal x ++ encElemsTail xs)

/-- One object member `"key":value`. -/
def encMember : String × Json → List Char
  | (k, v) => quoteChar :: (escStr k.data ++ (quoteChar :: ':' :: encVal v))

/-- Object members with closing brace, first member. -/
def encMembersFirst : List (String × Json) → List Char
  | [] => [rbrace]
  | kv :: rest => encMember kv ++ encMembersTail rest

/-- Object members with closing brace, after a member. -/
def encMembersTail : List (String × Json) → List Char
  | [] => [rbrace]
  | kv :: rest => ',' :: (encMember kv ++ encMembersTail rest)

end

mutual

/-- Fuel cost bound of parsing one value. -/
def jsize : Json → Nat
  | .null => 1
  | .bool _ => 1
  | .num _ => 1
  | .str _ => 1
  | .arr xs => 1 + esize xs
  | .obj fs => 1 + msize fs

/-- Fuel cost bound of parsing array elements. -/
def esize : List Json → Nat
  | [] => 1
  | x :: xs => 1 + jsize x + esize xs

/-- Fuel cost bound of parsing object members. -/
def msize : List (String × Json) → Nat
  | [] => 1
  | kv :: rest => 2 + jsize kv.2 + msize rest

end

/-- Body of a JSON string after the opening quote: characters up to the
closing quote, honouring the escapes produced by `escChar` (and the
standard full `\uXXXX` form below the surrogate range). -/
def parseStrBody : List Char → Option (List Char × List Char)
  | [] => none
  | c :: rest =>
    if c = quoteChar then some ([], rest)
    else if c = backslashChar then
      match rest with
      | [] => none
      | e :: rest2 =>
        if e = quoteChar then (parseStrBody rest2).map (fun p => (quoteChar :: p.1, p.2))
        else if e = backslashChar then
          (parseStrBody rest2).map (fun p => (backslashChar :: p.1, p.2))
        else if e = 'u' then
          match rest2 with
          | h1 :: h2 :: h3 :: h4 :: rest3 =>
            match hexVal h1, hexVal h2, hexVal h3, hexVal h4 with
            | some a, some b, some c2, some d =>
              let n := ((a * 16 + b) * 16 + c2) * 16 + d
              if n < 55296 then
                (parseStrBody rest3).map (fun p => (Char.ofNat n :: p.1, p.2))
              else none
            | _, _, _, _ => none
          | _ => none
        else none
    else (parseStrBody rest).map (fun p => (c :: p.1, p.2))

/-- Greedy decimal number scan with accumulator. -/
def parseNatAcc : List Char → Nat → (Nat × List Char)
  | [], acc => (acc, [])
  | c :: rest, acc =>
    if isDigitChar c then parseNatAcc rest (acc * 10 + (c.toNat - 48))
    else (acc, c :: rest)

/-- Bundle of the six mutually recursive parsing functions at one fuel
level (value, array elements in first / later position, one object
member, object members in first / later position).  Staging the mutual
recursion through this bundle keeps the recursion structural in the
fuel. -/
structure Parsers where
  pVal : List Char → Option (Json × List Char)
  pElemsFirst : List Char → Option (List Json × List Char)
  pElemsTail : List Char → Option (List Json × List Char)
  pMember : List Char → Option ((String × Json) × List Char)
  pMembersFirst : List Char → Option (List (String × Json) × List Char)
  pMembersTail : List Char → Option (List (String × Json) × List Char)

/-- Out-of-fuel parsers: everything fails. -/
def noParsers : Parsers :=
  ⟨fun _ => none, fun _ => none, fun _ => none,
   fun _ => none, fun _ => none, fun _ => none⟩

/-- One fuel level of the recursive-descent JSON grammar, on top of the
parsers `P` of the previous level. -/
def stepParsers (P : Parsers) : Parsers where
  pVal input :=
    match input with
    | [] => none
    | c :: rest =>
      if c = 'n' then
        match rest with
        | 'u' :: 'l' :: 'l' :: r => some (.null, r)
        | _ => none
      else if c = 't' then
        match rest with
        | 'r' :: 'u' :: 'e' :: r => some (.bool true, r)
        | _ => none
      else if c = 'f' then
        match rest with
        | 'a' :: 'l' :: 's' :: 'e' :: r => some (.bool false, r)
        | _ => none
      else if c = '-' then
        match rest with
        | c2 :: _ =>
          if isDigitChar c2 then
            let p := parseNatAcc rest 0
            some (.num (-(Int.ofNat p.1)), p.2)
          else none
        | [] => none
      else if c = '[' then
        (P.pElemsFirst rest).map (fun p => (.arr p.1, p.2))
      else if c = lbrace then
        (P.pMembersFirst rest).map (fun p => (.obj p.1, p.2))
      else if c = quoteChar then
        (parseStrBody rest).map (fun p => (.str (String.mk p.1), p.2))
      else if isDigitChar c then
        let p := parseNatAcc (c :: rest) 0
        some (.num (Int.ofNat p.1), p.2)
      else none
  pElemsFirst input :=
    match input with
    | [] => none
    | c :: rest =>
      if c = ']' then some ([], rest)
      else
        match P.pVal (c :: rest) with
        | none => none
        | some (j, r) =>
          match P.pElemsTail r with
          | none => none
          | some (xs, r2) => some (j :: xs, r2)
  pElemsTail input :=
    match input with
    | [] => none
    | c :: rest =>
      if c = ']' then some ([], rest)
      else if c = ',' then
        match P.pVal rest with
        | none => none
        | some (j, r) =>
          match P.pElemsTail r with
          | none => none
          | some (xs, r2) => some (j :: xs, r2)
      else none
  pMember input :=
    match input with
    | [] => none
    | c :: rest =>
      if c = quoteChar then
        match parseStrBody rest with
        | none => none
        | some (k, r) =>
          match r with
          | ':' :: r2 =>
            match P.pVal r2 with
            | none => none
            | some (v, r3) => some ((String.mk k, v), r3)
          | _ => none
      else none
  pMembersFirst input :=
    match input with
    | [] => none
    | c :: rest =>
      if c = rbrace then some ([], rest)
      else
        match P.pMember (c :: rest) with
        | none => none
        | some (kv, r) =>
          match P.pMembersTail r with
          | none => none
          | some (fs, r2) => some (kv :: fs, r2)
  pMembersTail input :=
    match input with
    | [] => none
    | c :: rest =>
      if c = rbrace then some ([], rest)
      else if c = ',' then
        match P.pMember rest with
        | none => none
        | some (kv, r) =>
          match P.pMembersTail r with
          | none => none
          | some (fs, r2) => some (kv :: fs, r2)
      else none

/-- The parser bundle with `fuel` levels of grammar recursion. -/
def parsersAt : Nat → Parsers
  | 0 => noParsers
  | fuel + 1 => stepParsers (parsersAt fuel)

/-- Recursive-descent JSON value parser (fuel-indexed). -/
def parseVal (fuel : Nat) (input : List Char) : Option (Json × List Char) :=
  (parsersAt fuel).pVal input

/-- Array elements up to `]`, first position. -/
def parseElemsFirst (fuel : Nat) (input : List Char) :
    Option (List Json × List Char) :=
  (parsersAt fuel).pElemsFirst input

/-- Array elements up to `]`, after an element. -/
def parseElemsTail (fuel : Nat) (input : List Char) :
    Option (List Json × List Char) :=
  (parsersAt fuel).pElemsTail input

/-- One object member `"key":value`. -/
def parseMemberFrom (fuel : Nat) (input : List Char) :
    Option ((String × Json) × List Char) :=
  (parsersAt fuel).pMember input

/-- Object members up to `}`, first position. -/
def parseMembersFirst (fuel : Nat) (input : List Char) :
    Option (List (String × Json) × List Char) :=
  (parsersAt fuel).pMembersFirst input

/-- Object members up to `}`, after a member. -/
def parseMembersTail (fuel : Nat) (input : List Char) :
    Option (List (String × Json) × List Char) :=
  (parsersAt fuel).pMembersTail input

/-- Modelled from the spec: `jsonutils.dumps`
(openstack/common/jsonutils.py is not under src/) - "must succeed for any
JSON-representable structure".  The JSON text of the value. -/
def dumps (j : Json) : String := String.mk (encVal j)

/-- Modelled from the spec: `jsonutils.loads` - the inverse operation,
failing on malformed input. -/
def loads (s : String) : Except RpcErr Json :=
  match parseVal (2 * s.data.length + 1) s.data with
  | some (j, []) => .ok j
  | _ => .error .typeError

/-- A Python value handed to the codec: either JSON-representable or not
(e.g. a set or an object reference, which `json` rejects with
`TypeError`). -/
inductive PyData where
  | jsonData (j : Json)
  | notRepresentable (descr : String)

/-- Modelled from the spec together with `_serialize`'s own wrapper
(impl_zmq.py lines 85-95): `jsonutils.dumps` on representable data,
`TypeError` otherwise. -/
def dumpsData : PyData → Except RpcErr String
  | .jsonData j => .ok (dumps j)
  | .notRepresentable _ => .error .typeError

/-- `_serialize` (lines 85-95): try `jsonutils.dumps`; on `TypeError`
log `"JSON serialization failed."` and re-raise - never coerce. -/
def _serialize (data : PyData) : Except RpcErr String :=
  match dumpsData data with
  | .ok s => .ok s
  | .error e => .error e

/-- `_deserialize` (lines 98-103): log and `jsonutils.loads`. -/
def _deserialize (s : String) : Except RpcErr Json :=
  loads s

/-! ## Theorems -/

/-- C1: `_multi_send`'s loop body returns during its first iteration, so
a fanout cast over two live endpoints spawns exactly one send - to the
first resolved endpoint only - although `_multi_send`'s own docstring
says it "sends message to all relevant hosts" and the loop is commented
"This supports brokerless fanout (addresses > 1)". -/
theorem fanout_cast_sends_only_first_endpoint :
    fanout_cast
        (fun _ => [("fanout~topic", "10.0.0.1"), ("fanout~topic", "10.0.0.2")])
        9501 "topic" =
      .ok [.spawnCast "tcp://10.0.0.1:9501" "fanout~topic"] := by
  rfl

/-- C2: on a reply sequence `["ab", "cd"]` with no remote-exception
element, the code has `multicall` return only the last element `"cd"`
(not the full sequence) and `call` return `"d"` - `data[-1]` applied to
an already-collapsed last element - instead of `"cd"`. -/
theorem multicall_call_return_last_element_bug :
    multicallReturn [Json.str "ab", Json.str "cd"] = .ok (.str "cd") ∧
    callReturn [Json.str "ab", Json.str "cd"] = .ok (.str "d") := by
  exact ⟨rfl, rfl⟩

/-- C5: when the matchmaker resolves a topic to zero endpoints, every
entry point (`cast`, `call`, `multicall`, `fanout_cast`) raises the
`Timeout` of `_multi_send` line 699; the error branch issues no send
action and is evaluated once (no internal retry). -/
theorem multi_send_empty_matchmaker_timeout
    (queues : String → List (String × String)) (port : Nat) (topic : String)
    (hq : queues topic = []) (hqf : queues ("fanout~" ++ topic) = []) :
    cast queues port topic = .error (.timeout "No match from matchmaker.") ∧
    call queues port topic = .error (.timeout "No match from matchmaker.") ∧
    multicall queues port topic = .error (.timeout "No match from matchmaker.") ∧
    fanout_cast queues port topic = .error (.timeout "No match from matchmaker.") := by
  refine ⟨?_, ?_, ?_, ?_⟩ <;> simp [cast, call, multicall, fanout_cast, _multi_send, hq, hqf]

/-- C5 witness: a matchmaker with no consumers at all. -/
theorem multi_send_empty_matchmaker_timeout_witness :
    cast (fun _ => []) 9501 "orders" = .error (.timeout "No match from matchmaker.") ∧
    call (fun _ => []) 9501 "orders" = .error (.timeout "No match from matchmaker.") ∧
    multicall (fun _ => []) 9501 "orders" = .error (.timeout "No match from matchmaker.") ∧
    fanout_cast (fun _ => []) 9501 "orders" = .error (.timeout "No match from matchmaker.") :=
  multi_send_empty_matchmaker_timeout (fun _ => []) 9501 "orders" rfl rfl

/-- C7: a PUSH or PUB socket sends and cannot receive; a PULL or SUB
socket receives and cannot send; the unsupported operation raises the
capability `RPCException` and performs no transport operation. -/
theorem socket_capability_send_recv (s : ZmqSocket) (data : List String) :
    ((s.typ = .push ∨ s.typ = .pub) →
      s.send data = .ok [.sentMultipart data] ∧
      s.recv = .error (.rpcException "You cannot recv on this socket.")) ∧
    ((s.typ = .pull ∨ s.typ = .sub) →
      s.recv = .ok [.receivedMultipart] ∧
      s.send data = .error (.rpcException "You cannot send on this socket.")) := by
  constructor
  · rintro (h | h) <;>
      simp [ZmqSocket.send, ZmqSocket.recv, can_send, can_recv, h]
  · rintro (h | h) <;>
      simp [ZmqSocket.send, ZmqSocket.recv, can_send, can_recv, h]

/-- C7 witness: a concrete PUSH socket and a concrete PULL socket. -/
theorem socket_capability_send_recv_witness :
    (ZmqSocket.mk "tcp://a:1" .push []).send ["x"] = .ok [.sentMultipart ["x"]] ∧
    (ZmqSocket.mk "tcp://a:1" .pull []).recv = .ok [.receivedMultipart] :=
  ⟨((socket_capability_send_recv ⟨"tcp://a:1", .push, []⟩ ["x"]).1 (Or.inl rfl)).1,
   ((socket_capability_send_recv ⟨"tcp://a:1", .pull, []⟩ ["x"]).2 (Or.inl rfl)).1⟩

/-- C8 counterexample: subscribing a filter that is already active is not
a no-op - `subscribe` appends unconditionally, duplicating the entry, and
a subsequent single `unsubscribe` therefore leaves the filter active. -/
theorem subscribe_duplicate_not_noop :
    (ZmqSocket.mk "a" .sub ["f"]).subscribe "f" =
      .ok (ZmqSocket.mk "a" .sub ["f", "f"]) ∧
    ZmqSocket.mk "a" .sub ["f", "f"] ≠ ZmqSocket.mk "a" .sub ["f"] ∧
    (ZmqSocket.mk "a" .sub ["f", "f"]).unsubscribe "f" =
      ZmqSocket.mk "a" .sub ["f"] := by
  refine ⟨rfl, by decide, by decide⟩

/-- C8 (amended): `subscribe` is valid only on SUB sockets; on SUB it
unconditionally appends the filter (duplicating it when already present,
so it is not idempotent); `unsubscribe` of a filter not in the
subscription list is a no-op on any kind, and otherwise removes one
occurrence. -/
theorem subscribe_unsubscribe_behaviour (s : ZmqSocket) (f : String) :
    (can_sub s.typ = false →
      s.subscribe f = .error (.rpcException "Cannot subscribe on this socket.")) ∧
    (can_sub s.typ = true →
      s.subscribe f = .ok { s with subscriptions := s.subscriptions ++ [f] }) ∧
    (f ∉ s.subscriptions → s.unsubscribe f = s) ∧
    (f ∈ s.subscriptions →
      s.unsubscribe f = { s with subscriptions := s.subscriptions.erase f }) := by
  refine ⟨?_, ?_, ?_, ?_⟩ <;> intro h <;>
    simp [ZmqSocket.subscribe, ZmqSocket.unsubscribe, h]

/-- C8 witness: concrete sockets exercising all four branches. -/
theorem subscribe_unsubscribe_behaviour_witness :
    (ZmqSocket.mk "a" .push []).subscribe "f" =
      .error (.rpcException "Cannot subscribe on this socket.") ∧
    (ZmqSocket.mk "a" .sub ["g"]).subscribe "f" =
      .ok (ZmqSocket.mk "a" .sub ["g", "f"]) ∧
    (ZmqSocket.mk "a" .sub ["g"]).unsubscribe "f" = ZmqSocket.mk "a" .sub ["g"] ∧
    (ZmqSocket.mk "a" .sub ["g", "f"]).unsubscribe "f" = ZmqSocket.mk "a" .sub ["g"] :=
  ⟨(subscribe_unsubscribe_behaviour ⟨"a", .push, []⟩ "f").1 rfl,
   (subscribe_unsubscribe_behaviour ⟨"a", .sub, ["g"]⟩ "f").2.1 rfl,
   (subscribe_unsubscribe_behaviour ⟨"a", .sub, ["g"]⟩ "f").2.2.1 (by decide),
   (subscribe_unsubscribe_behaviour ⟨"a", .sub, ["g", "f"]⟩ "f").2.2.2 (by decide)⟩

/-- C9 counterexample: the payload method `"-process_reply"` begins with
the internal marker `-`, yet `ConsumerBase.process` forwards it to the
application dispatcher - only the exact method `"-reply"` is routed to
the private reply handler. -/
theorem process_dash_method_dispatched :
    (process { method := some "-process_reply",
               args := some [("msg_id", Json.null)] }).1 =
      .dispatch none "-process_reply" [("msg_id", Json.null)] ∧
    "-process_reply" ≠ "-reply" ∧
    "-process_reply".data.head? = some '-' := by
  refine ⟨rfl, by decide, by decide⟩

/-- C9 (amended): for a payload with a non-empty method, the exact method
`"-reply"` is routed to the private reply handler and never to the
application dispatcher; every other method - including other methods
beginning with `-` - is forwarded to the application dispatcher with
`(version, method, args)`. -/
theorem process_routing_exact_reply (d : MsgData) (m : String)
    (hm : d.method = some m) (hne : m ≠ "") :
    (m = "-reply" → (process d).1 = .privateReply (d.args.getD [])) ∧
    (m ≠ "-reply" → (process d).1 = .dispatch (d.version.getD none) m (d.args.getD [])) := by
  constructor
  · intro h
    subst h
    simp [process, hm, setdefaults]
  · intro h
    simp [process, hm, setdefaults, hne, h]

/-- C9 witness: both routing branches at concrete payloads. -/
theorem process_routing_exact_reply_witness :
    (process { method := some "-reply", args := some [("msg_id", Json.null)] }).1 =
      .privateReply [("msg_id", Json.null)] ∧
    (process { method := some "create", args := some [] }).1 =
      .dispatch none "create" [] :=
  ⟨(process_routing_exact_reply _ "-reply" rfl (by decide)).1 rfl,
   (process_routing_exact_reply _ "create" rfl (by decide)).2 (by decide)⟩

/-- C10: when the payload lacks a method (or its method is empty),
`ConsumerBase.process` logs an error and returns without dispatching to
either handler and without raising; the `setdefault` of `version` (to
`None`) and `args` (to `{}`) has been applied before the method check. -/
theorem process_missing_method_logs_and_defaults (d : MsgData)
    (h : d.method = none ∨ d.method = some "") :
    process d = (.logNoMethod,
      { d with version := some (d.version.getD none), args := some (d.args.getD []) }) := by
  rcases h with h | h <;> simp [process, setdefaults, h]

/-- C10 witness: an envelope with no method at all. -/
theorem process_missing_method_logs_and_defaults_witness :
    process { method := none, version := none, args := none } =
      (.logNoMethod, { method := none, version := some none, args := some [] }) :=
  process_missing_method_logs_and_defaults _ (Or.inl rfl)

/-- One `consume` step on a state holding only topic `t`'s queue, below
capacity: the frame is appended. -/
theorem proxyConsume_step (K : Int) (t : String) (l : List ProxyLog)
    (q : List Frame) (f : Frame) (hK : 1 ≤ K) (hlen : (q.length : Int) < K)
    (hf : pySplitFirst '.' f.topic = t) :
    proxyConsume (some K) ⟨[(t, q)], l⟩ f = ⟨[(t, q ++ [f])], l⟩ := by
  have h0 : ¬ K ≤ 0 := by omega
  simp [proxyConsume, hf, alistLookup, alistSet, lightQueuePut, h0, hlen]

/-- One `consume` step at capacity: the frame is dropped and the
error-level backlog entry appended. -/
theorem proxyConsume_full (K : Int) (t : String) (l : List ProxyLog)
    (q : List Frame) (f : Frame) (hK : 1 ≤ K) (hlen : ¬ (q.length : Int) < K)
    (hf : pySplitFirst '.' f.topic = t) :
    proxyConsume (some K) ⟨[(t, q)], l⟩ f = ⟨[(t, q)], l ++ [.errorBacklogFull t]⟩ := by
  have h0 : ¬ K ≤ 0 := by omega
  simp [proxyConsume, hf, alistLookup, alistSet, lightQueuePut, h0, hlen]

/-- First `consume` step from the empty proxy state: the queue for the
routing key is created and the frame enqueued. -/
theorem proxyConsume_create (K : Int) (t : String) (f : Frame)
    (hK : 1 ≤ K) (hf : pySplitFirst '.' f.topic = t) :
    proxyConsume (some K) {} f = ⟨[(t, [f])], []⟩ := by
  have h0 : ¬ K ≤ 0 := by omega
  have hpos : (0 : Int) < K := by omega
  simp [proxyConsume, hf, alistLookup, alistSet, lightQueuePut, h0, hpos]

/-- Folding `consume` over frames that all fit appends them in order. -/
theorem proxyConsume_fill (K : Int) (t : String) (l : List ProxyLog) :
    ∀ (fs : List Frame) (q : List Frame), 1 ≤ K →
    ((q.length : Int) + fs.length ≤ K) →
    (∀ f ∈ fs, pySplitFirst '.' f.topic = t) →
    fs.foldl (proxyConsume (some K)) ⟨[(t, q)], l⟩ = ⟨[(t, q ++ fs)], l⟩ := by
  intro fs
  induction fs with
  | nil => intro q _ _ _; simp
  | cons f fs ih =>
    intro q hK hlen hroute
    have hf : pySplitFirst '.' f.topic = t := hroute f (by simp)
    have hq : (q.length : Int) < K := by
      simp only [List.length_cons] at hlen
      push_cast at hlen
      omega
    have hfit : ((q ++ [f]).length : Int) + (fs.length : Int) ≤ K := by
      simp only [List.length_append, List.length_cons, List.length_nil,
        List.length_singleton] at hlen ⊢
      push_cast at hlen ⊢
      omega
    rw [List.foldl_cons, proxyConsume_step K t l q f hK hq hf,
      ih (q ++ [f]) hK hfit (fun g hg => hroute g (by simp [hg]))]
    simp

/-- C4: with a per-topic backlog of finite capacity `K ≥ 1`, feeding
`K + 1` frames for the same routing key through the proxy's consume path
with no drain preserves the first `K` frames in enqueue order, drops
exactly the newest frame, and records exactly one error-level log entry
naming the topic; the consume path is total (never blocks). -/
theorem topic_backlog_overflow_drops_newest (K : Nat) (t : String)
    (frames : List Frame) (hK : 1 ≤ K) (hlen : frames.length = K + 1)
    (hroute : ∀ f ∈ frames, pySplitFirst '.' f.topic = t) :
    frames.foldl (proxyConsume (some (K : Int))) {} =
      { topicProxy := [(t, frames.take K)], log := [.errorBacklogFull t] } := by
  have hK1 : (1 : Int) ≤ (K : Int) := by exact_mod_cast hK
  rcases List.eq_nil_or_concat frames with rfl | ⟨init, flast, rfl⟩
  · simp at hlen
  · have hinit : init.length = K := by
      simpa [List.concat_eq_append] using hlen
    cases init with
    | nil => simp at hinit; omega
    | cons f0 mid =>
      have hf0 : pySplitFirst '.' f0.topic = t := hroute f0 (by simp)
      have hmid : ∀ f ∈ mid, pySplitFirst '.' f.topic = t :=
        fun f hf => hroute f (by simp [hf])
      have hflast : pySplitFirst '.' flast.topic = t := hroute flast (by simp)
      have hmidlen : mid.length = K - 1 := by
        simp only [List.length_cons] at hinit
        omega
      have hfit : (([f0] : List Frame).length : Int) + (mid.length : Int) ≤ (K : Int) := by
        simp only [List.length_singleton, hmidlen]
        push_cast
        omega
      have step1 : proxyConsume (some (K : Int)) {} f0 = ⟨[(t, [f0])], []⟩ :=
        proxyConsume_create (K : Int) t f0 hK1 hf0
      have step2 : mid.foldl (proxyConsume (some (K : Int))) ⟨[(t, [f0])], []⟩ =
          ⟨[(t, [f0] ++ mid)], []⟩ :=
        proxyConsume_fill (K : Int) t [] mid [f0] hK1 hfit hmid
      have hql : ¬ ((([f0] ++ mid).length : Int) < (K : Int)) := by
        simp only [List.length_append, List.length_singleton, hmidlen]
        push_cast
        omega
      have step3 : proxyConsume (some (K : Int)) ⟨[(t, [f0] ++ mid)], []⟩ flast =
          ⟨[(t, [f0] ++ mid)], [] ++ [.errorBacklogFull t]⟩ :=
        proxyConsume_full (K : Int) t [] ([f0] ++ mid) flast hK1 hql hflast
      have htake : ((f0 :: mid) ++ [flast]).take K = f0 :: mid := by
        simpa [hinit] using List.take_left (f0 :: mid) [flast]
      have inner : List.foldl (proxyConsume (some (K : Int))) {} (f0 :: mid) =
          ⟨[(t, [f0] ++ mid)], []⟩ := by
        rw [List.foldl_cons, step1, step2]
      rw [List.concat_eq_append, List.foldl_append, inner, List.foldl_cons, step3,
        List.foldl_nil, htake]
      simp

/-- C4 witness: capacity 2, three frames routed to topic `orders`. -/
theorem topic_backlog_overflow_drops_newest_witness :
    (1 ≤ 2) ∧
    ([⟨"1", "orders.h1", "cast", "a"⟩, ⟨"2", "orders", "cast", "b"⟩,
      ⟨"3", "orders.h2", "cast", "c"⟩] : List Frame).foldl
        (proxyConsume (some ((2 : Nat) : Int))) {} =
      { topicProxy := [("orders",
          [⟨"1", "orders.h1", "cast", "a"⟩, ⟨"2", "orders", "cast", "b"⟩])],
        log := [.errorBacklogFull "orders"] } :=
  ⟨by decide,
   topic_backlog_overflow_drops_newest 2 "orders" _ (by decide) (by decide) (by decide)⟩

/-- Looking up a key just set finds the new value. -/
theorem alistLookup_set_self {α : Type} (k : String) (v : α)
    (l : List (String × α)) : alistLookup k (alistSet k v l) = some v := by
  induction l with
  | nil => simp [alistSet, alistLookup]
  | cons kv rest ih =>
    by_cases h : kv.1 = k
    · simp [alistSet, alistLookup, h]
    · simp [alistSet, alistLookup, h, ih]

/-- Looking up a removed key finds nothing. -/
theorem alistLookup_remove_self {α : Type} (k : String)
    (l : List (String × α)) : alistLookup k (alistRemove k l) = none := by
  induction l with
  | nil => simp [alistRemove, alistLookup]
  | cons kv rest ih =>
    by_cases h : kv.1 = k
    · simp [alistRemove, h, ih]
    · simp [alistRemove, alistLookup, h, ih]

/-- The membership set read after `MatchMakerRedis.expire`'s pipeline:
the member has been erased. -/
theorem smembers_mmExpire (st : RedisState) (topic : String) (host : String) :
    redisSmembers (mmExpire st topic host) topic =
      (redisSmembers st topic).erase host := by
  simp [mmExpire, redisSrem, redisDel, redisSmembers, alistLookup_set_self]

/-- Membership after `SADD`. -/
theorem smembers_sadd_self (st : RedisState) (k : String) (m : String) :
    redisSmembers (redisSadd st k m) k =
      if m ∈ redisSmembers st k then redisSmembers st k
      else redisSmembers st k ++ [m] := by
  by_cases h : m ∈ redisSmembers st k
  · simp [redisSadd, h]
  · rw [if_neg h]
    unfold redisSadd
    rw [if_neg h]
    simp [redisSmembers, alistLookup_set_self]

/-- Stripping the `fanout~` marker recovers the topic. -/
theorem split_fanout (T : String) :
    pySplitSecond '~' ("fanout~" ++ T) = some T := by
  show (splitTailAfter '~' ("fanout~" ++ T).data).map String.mk = some T
  rw [String.data_append]
  show (splitTailAfter '~'
    ('f' :: 'a' :: 'n' :: 'o' :: 'u' :: 't' :: '~' :: T.data)).map String.mk = some T
  simp [splitTailAfter]

/-- The topic exchange never returns an endpoint whose member name is
outside the current membership set: once a member is evicted, no later
result of the `while` loop names it. -/
theorem topicExchangeLoop_not_member (choose : List String → Option String)
    (T kh : String) (hchoose : ∀ l x, choose l = some x → x ∈ l) :
    ∀ (fuel : Nat) (st : RedisState), kh ∉ redisSmembers st T →
      ∀ pairs st4, topicExchangeLoop choose T fuel st = .ok (pairs, st4) →
      ∀ p ∈ pairs, p.1 ≠ kh := by
  intro fuel
  induction fuel with
  | zero =>
    intro st _ pairs st4 h
    simp [topicExchangeLoop] at h
  | succ fuel ih =>
    intro st hmem pairs st4 h
    rw [topicExchangeLoop] at h
    cases hch : choose (redisSmembers st T) with
    | none =>
      simp only [hch, Except.ok.injEq, Prod.mk.injEq] at h
      rcases h with ⟨rfl, rfl⟩
      intro p hp
      simp at hp
    | some member =>
      simp only [hch] at h
      have hmm : member ∈ redisSmembers st T := hchoose _ _ hch
      have hne : member ≠ kh := fun e => hmem (e ▸ hmm)
      by_cases halive : (is_alive st T member).1 = true
      · simp only [halive, if_true] at h
        cases hsp : pySplitSecond '.' member with
        | none =>
          simp only [hsp] at h
          exact Except.noConfusion h
        | some host =>
          simp only [hsp, Except.ok.injEq, Prod.mk.injEq] at h
          rcases h with ⟨rfl, rfl⟩
          intro p hp
          simp at hp
          subst hp
          exact hne
      · have halive2 : (is_alive st T member).1 = false := by
          simpa using halive
        simp only [halive2, Bool.false_eq_true, if_false] at h
        have hst2 : (is_alive st T member).2 = mmExpire st T member := by
          unfold is_alive at halive2 ⊢
          by_cases hc : redisTtl st member = -1
          · rw [if_pos hc]
          · rw [if_neg hc] at halive2
            simp at halive2
        refine ih _ ?_ pairs st4 h
        rw [hst2, smembers_mmExpire]
        intro hx
        exact hmem (List.erase_subset _ _ hx)

/-- The fanout exchange never returns an endpoint whose member name is
outside the current membership set. -/
theorem fanoutExchangeRun_not_member (st : RedisState) (T kh : String)
    (hmem : kh ∉ redisSmembers st T) :
    ∀ pairs st4, fanoutExchangeRun st ("fanout~" ++ T) = .ok (pairs, st4) →
      ∀ p ∈ pairs, p.1 ≠ kh := by
  intro pairs st4 h
  rw [fanoutExchangeRun] at h
  simp only [split_fanout] at h
  cases hms : mapSplitSecond (fanoutFilterAlive T (redisSmembers st T) st).1 with
  | none =>
    simp only [hms] at h
    exact Except.noConfusion h
  | some addresses =>
    simp only [hms, Except.ok.injEq, Prod.mk.injEq] at h
    rcases h with ⟨rfl, rfl⟩
    intro p hp
    have hp1 := (List.of_mem_zip hp).1
    exact fun e => hmem (e ▸ hp1)

/-- `DEL` does not touch the sets. -/
theorem smembers_redisDel (st : RedisState) (k X : String) :
    redisSmembers (redisDel st k) X = redisSmembers st X := rfl

/-- `SET` does not touch the sets. -/
theorem smembers_redisSet (st : RedisState) (k X : String) :
    redisSmembers (redisSet st k) X = redisSmembers st X := rfl

/-- `EXPIRE` does not touch the sets. -/
theorem smembers_redisExpire (st : RedisState) (k : String) (t : Int) (X : String) :
    redisSmembers (redisExpire st k t).1 X = redisSmembers st X := by
  unfold redisExpire
  cases alistLookup k st.kv <;> rfl

/-- C6: after host `H` is registered under topic `T` and its liveness key
`T.H` has expired, `is_alive` reports the member stale and - in one
pipeline - deletes the liveness key and removes the member from `T`'s
set; afterwards neither the topic exchange nor the fanout exchange can
return an endpoint naming the member. -/
theorem redis_is_alive_expired_evicts (ttlConf : Int) (st0 : RedisState)
    (T H kh : String) (choose : List String → Option String)
    (st2 : RedisState) (res : Bool × RedisState)
    (hchoose : ∀ l x, choose l = some x → x ∈ l)
    (hnodup : (redisSmembers st0 T).Nodup)
    (hkh : kh = T ++ "." ++ H)
    (hst2 : st2 = redisKeyExpires (mmRegister ttlConf st0 T H) kh)
    (hres : res = is_alive st2 T kh) :
    res.1 = false ∧
    alistLookup kh res.2.kv = none ∧
    kh ∉ redisSmembers res.2 T ∧
    (∀ pairs st4, topicExchangeRun choose res.2 T = .ok (pairs, st4) →
      ∀ p ∈ pairs, p.1 ≠ kh) ∧
    (∀ pairs st4, fanoutExchangeRun res.2 ("fanout~" ++ T) = .ok (pairs, st4) →
      ∀ p ∈ pairs, p.1 ≠ kh) := by
  have httl : redisTtl st2 kh = -1 := by
    rw [hst2]
    simp [redisKeyExpires, redisDel, redisTtl, alistLookup_remove_self]
  have hres2 : res = (false, mmExpire st2 T kh) := by
    rw [hres]
    unfold is_alive
    rw [if_pos httl]
  have hr2 : res.2 = mmExpire st2 T kh := by rw [hres2]
  have h1 : res.1 = false := by rw [hres2]
  have hkv : alistLookup kh res.2.kv = none := by
    rw [hr2, hst2]
    simp [mmExpire, redisSrem, redisDel, redisKeyExpires, alistLookup_remove_self]
  have hsm : redisSmembers st2 T = redisSmembers (redisSadd st0 T kh) T := by
    rw [hst2, hkh]
    simp only [redisKeyExpires, mmRegister, ack_alive, backend_register,
      smembers_redisDel, smembers_redisExpire, smembers_redisSet]
  have hnodup2 : (redisSmembers st2 T).Nodup := by
    rw [hsm, smembers_sadd_self]
    split
    · exact hnodup
    · next hin =>
      refine hnodup.append (List.nodup_singleton _) ?_
      intro b hb
      simp only [List.mem_singleton]
      exact fun e => hin (e ▸ hb)
  have hmemfinal : kh ∉ redisSmembers res.2 T := by
    rw [hr2, smembers_mmExpire]
    exact hnodup2.not_mem_erase
  refine ⟨h1, hkv, hmemfinal, ?_, ?_⟩
  · intro pairs st4 h
    rw [topicExchangeRun] at h
    exact topicExchangeLoop_not_member choose T kh hchoose _ res.2 hmemfinal pairs st4 h
  · intro pairs st4 h
    exact fanoutExchangeRun_not_member res.2 T kh hmemfinal pairs st4 h

/-- C6 witness: fresh store, topic `orders`, host `h1`, with
`srandmember` modelled by `List.head?`. -/
theorem redis_is_alive_expired_evicts_witness :
    (is_alive (redisKeyExpires (mmRegister 600 {} "orders" "h1") "orders.h1")
        "orders" "orders.h1").1 = false ∧
    alistLookup "orders.h1"
      (is_alive (redisKeyExpires (mmRegister 600 {} "orders" "h1") "orders.h1")
        "orders" "orders.h1").2.kv = none ∧
    "orders.h1" ∉ redisSmembers
      (is_alive (redisKeyExpires (mmRegister 600 {} "orders" "h1") "orders.h1")
        "orders" "orders.h1").2 "orders" := by
  have hchoose : ∀ (l : List String) (x : String), l.head? = some x → x ∈ l := by
    intro l x h
    cases l with
    | nil => exact Option.noConfusion h
    | cons a as =>
      simp only [List.head?, Option.some.injEq] at h
      rw [← h]
      exact List.mem_cons_self a as
  have hall := redis_is_alive_expired_evicts 600 {} "orders" "h1" "orders.h1"
    List.head? (redisKeyExpires (mmRegister 600 {} "orders" "h1") "orders.h1")
    (is_alive (redisKeyExpires (mmRegister 600 {} "orders" "h1") "orders.h1")
      "orders" "orders.h1")
    hchoose (by simp [redisSmembers, alistLookup]) (by decide) rfl rfl
  exact ⟨hall.1, hall.2.1, hall.2.2.1⟩

/-- Below the surrogate range, `Char.ofNat` is a left inverse of
`Char.toNat`. -/
theorem toNat_ofNat_lt (n : Nat) (h : n < 55296) : (Char.ofNat n).toNat = n := by
  have hv : Nat.isValidChar n := Or.inl h
  unfold Char.ofNat
  rw [dif_pos hv]
  rfl

/-- Hexadecimal digits decode back to their value. -/
theorem hexVal_hexDigitChar : ∀ n, n < 16 → hexVal (hexDigitChar n) = some n := by decide

/-- Decimal digit characters are digits. -/
theorem isDigitChar_digitChar : ∀ n, n < 10 → isDigitChar (digitChar n) = true := by decide

/-- Code point of a decimal digit character. -/
theorem digitChar_toNat : ∀ n, n < 10 → (digitChar n).toNat = 48 + n := by decide

/-- A rendered number is never empty. -/
theorem natDigits_ne_nil (n : Nat) : natDigits n ≠ [] := by
  rw [natDigits]
  split <;> simp

/-- Every character of a rendered number is a digit. -/
theorem natDigits_all_digits (n : Nat) : ∀ c ∈ natDigits n, isDigitChar c = true := by
  induction n using Nat.strong_induction_on with
  | _ n ih =>
    rw [natDigits]
    split
    · next h =>
      intro c hc
      simp only [List.mem_singleton] at hc
      subst hc
      exact isDigitChar_digitChar n h
    · next h =>
      intro c hc
      rcases List.mem_append.mp hc with h1 | h2
      · exact ih (n / 10) (Nat.div_lt_self (by omega) (by omega)) c h1
      · simp only [List.mem_singleton] at h2
        subst h2
        exact isDigitChar_digitChar (n % 10) (Nat.mod_lt _ (by omega))

/-- Folding the digit-accumulation step over a rendered number. -/
theorem natDigits_foldl (n : Nat) : ∀ acc,
    (natDigits n).foldl (fun a c => a * 10 + (c.toNat - 48)) acc =
      acc * 10 ^ (natDigits n).length + n := by
  induction n using Nat.strong_induction_on with
  | _ n ih =>
    intro acc
    rw [natDigits]
    split
    · next h =>
      simp only [List.foldl_cons, List.foldl_nil, List.length_singleton, pow_one,
        digitChar_toNat n h]
      omega
    · next h =>
      rw [List.foldl_append,
        ih (n / 10) (Nat.div_lt_self (by omega) (by omega)) acc,
        List.length_append]
      simp only [List.foldl_cons, List.foldl_nil, List.length_singleton,
        digitChar_toNat (n % 10) (Nat.mod_lt _ (by omega))]
      rw [pow_succ, ← mul_assoc]
      have hdm := Nat.div_add_mod n 10
      omega

/-- The number scan consumes exactly a block of digits. -/
theorem parseNatAcc_digits : ∀ (ds : List Char), (∀ c ∈ ds, isDigitChar c = true) →
    ∀ rest acc, parseNatAcc (ds ++ rest) acc =
      parseNatAcc rest (ds.foldl (fun a c => a * 10 + (c.toNat - 48)) acc) := by
  intro ds
  induction ds with
  | nil => intro _ rest acc; simp
  | cons c ds ih =>
    intro hds rest acc
    rw [List.cons_append, parseNatAcc, if_pos (hds c (by simp))]
    rw [ih (fun d hd => hds d (by simp [hd])) rest]
    simp

/-- The number scan stops at a non-digit. -/
theorem parseNatAcc_stop (rest : List Char) (h : headNotDigit rest) (acc : Nat) :
    parseNatAcc rest acc = (acc, rest) := by
  cases rest with
  | nil => rfl
  | cons c r =>
    simp only [headNotDigit] at h
    rw [parseNatAcc, if_neg (by simp [h])]

/-- A rendered natural followed by a non-digit scans back to itself. -/
theorem parse_natDigits (n : Nat) (rest : List Char) (h : headNotDigit rest) :
    parseNatAcc (natDigits n ++ rest) 0 = (n, rest) := by
  rw [parseNatAcc_digits (natDigits n) (natDigits_all_digits n) rest 0,
    parseNatAcc_stop rest h, natDigits_foldl n 0]
  simp

/-- String-body scan at a closing quote. -/
theorem parseStrBody_quote (rest : List Char) :
    parseStrBody (quoteChar :: rest) = some ([], rest) := by
  rw [parseStrBody.eq_def]
  rfl

/-- String-body scan at an escaped quote. -/
theorem parseStrBody_esc_quote (tail : List Char) :
    parseStrBody (backslashChar :: quoteChar :: tail) =
      (parseStrBody tail).map (fun p => (quoteChar :: p.1, p.2)) := by
  rw [parseStrBody.eq_def]
  rfl

/-- String-body scan at an escaped backslash. -/
theorem parseStrBody_esc_backslash (tail : List Char) :
    parseStrBody (backslashChar :: backslashChar :: tail) =
      (parseStrBody tail).map (fun p => (backslashChar :: p.1, p.2)) := by
  rw [parseStrBody.eq_def]
  rfl

/-- String-body scan at a `\uXXXX` escape. -/
theorem parseStrBody_u (d1 d2 d3 d4 : Char) (tail : List Char) :
    parseStrBody (backslashChar :: 'u' :: d1 :: d2 :: d3 :: d4 :: tail) =
      match hexVal d1, hexVal d2, hexVal d3, hexVal d4 with
      | some a, some b, some c2, some d =>
        let n := ((a * 16 + b) * 16 + c2) * 16 + d
        if n < 55296 then (parseStrBody tail).map (fun p => (Char.ofNat n :: p.1, p.2))
        else none
      | _, _, _, _ => none := by
  rw [parseStrBody.eq_def]
  rfl

/-- String-body scan at an unescaped ordinary character. -/
theorem parseStrBody_other (c : Char) (tail : List Char)
    (h1 : ¬ c = quoteChar) (h2 : ¬ c = backslashChar) :
    parseStrBody (c :: tail) =
      (parseStrBody tail).map (fun p => (c :: p.1, p.2)) := by
  rw [parseStrBody.eq_def]
  simp only [if_neg h1, if_neg h2]

/-- The escaped body of a string followed by the closing quote parses
back to the original characters. -/
theorem parseStrBody_escStr : ∀ (cs : List Char) (rest : List Char),
    parseStrBody (escStr cs ++ (quoteChar :: rest)) = some (cs, rest) := by
  intro cs
  induction cs with
  | nil =>
    intro rest
    rw [escStr, List.nil_append, parseStrBody_quote]
  | cons c cs ih =>
    intro rest
    rw [escStr, List.append_assoc]
    by_cases h1 : c = quoteChar
    · subst h1
      rw [escChar, if_pos rfl]
      show parseStrBody (backslashChar :: quoteChar :: (escStr cs ++ (quoteChar :: rest))) = _
      rw [parseStrBody_esc_quote, ih rest]
      rfl
    · by_cases h2 : c = backslashChar
      · subst h2
        rw [escChar, if_neg h1, if_pos rfl]
        show parseStrBody (backslashChar :: backslashChar ::
          (escStr cs ++ (quoteChar :: rest))) = _
        rw [parseStrBody_esc_backslash, ih rest]
        rfl
      · by_cases h3 : c.toNat < 32
        · have hdiv : c.toNat / 16 < 16 := by omega
          have hmod : c.toNat % 16 < 16 := Nat.mod_lt _ (by omega)
          rw [escChar, if_neg h1, if_neg h2, if_pos h3]
          show parseStrBody (backslashChar :: 'u' :: '0' :: '0' ::
            hexDigitChar (c.toNat / 16) :: hexDigitChar (c.toNat % 16) ::
            (escStr cs ++ (quoteChar :: rest))) = some (c :: cs, rest)
          rw [parseStrBody_u]
          have h0 : hexVal '0' = some 0 := by decide
          rw [h0, hexVal_hexDigitChar _ hdiv, hexVal_hexDigitChar _ hmod]
          simp only []
          have hn : ((0 * 16 + 0) * 16 + c.toNat / 16) * 16 + c.toNat % 16 = c.toNat := by
            have hdm := Nat.div_add_mod c.toNat 16
            omega
          rw [hn, if_pos (by omega : c.toNat < 55296), ih rest]
          simp [Char.ofNat_toNat]
        · rw [escChar, if_neg h1, if_neg h2, if_neg h3]
          show parseStrBody (c :: (escStr cs ++ (quoteChar :: rest))) = some (c :: cs, rest)
          rw [parseStrBody_other c _ h1 h2, ih rest]
          rfl

/-- Sizes are positive. -/
theorem jsize_pos (j : Json) : 1 ≤ jsize j := by
  cases j <;> simp only [jsize] <;> omega

/-- Element sizes are positive. -/
theorem esize_pos (xs : List Json) : 1 ≤ esize xs := by
  cases xs <;> simp only [esize] <;> omega

/-- Member sizes are positive. -/
theorem msize_pos (fs : List (String × Json)) : 1 ≤ msize fs := by
  cases fs <;> simp only [msize] <;> omega

/-- The rendered form of an integer is nonempty. -/
theorem intChars_len_pos (i : Int) : 1 ≤ (intChars i).length := by
  cases i with
  | ofNat n =>
    simp only [intChars]
    exact List.length_pos.mpr (natDigits_ne_nil n)
  | negSucc m => simp [intChars]

/-- The parse-cost measures are bounded by twice the encoded length. -/
theorem enc_size_bound : ∀ k : Nat,
    (∀ j, jsize j ≤ k → jsize j ≤ 2 * (encVal j).length) ∧
    (∀ xs, esize xs ≤ k →
      esize xs + 1 ≤ 2 * (encElemsTail xs).length ∧
      esize xs ≤ 1 + 2 * (encElemsFirst xs).length) ∧
    (∀ fs, msize fs ≤ k →
      msize fs + 1 ≤ 2 * (encMembersTail fs).length ∧
      msize fs ≤ 1 + 2 * (encMembersFirst fs).length) := by
  intro k
  induction k using Nat.strong_induction_on with
  | _ k IH =>
    refine ⟨?_, ?_, ?_⟩
    · intro j hj
      cases j with
      | null => simp [jsize, encVal, kwNull]
      | bool b => cases b <;> simp [jsize, encVal, kwTrue, kwFalse]
      | num i =>
        have := intChars_len_pos i
        simp only [jsize, encVal]
        omega
      | str s =>
        simp only [jsize, encVal, List.length_cons, List.length_append]
        omega
      | arr xs =>
        have hlt : esize xs < k := by
          simp only [jsize] at hj
          omega
        have hb := ((IH (esize xs) hlt).2.1 xs le_rfl).2
        simp only [jsize, encVal, List.length_cons]
        omega
      | obj fs =>
        have hlt : msize fs < k := by
          simp only [jsize] at hj
          omega
        have hb := ((IH (msize fs) hlt).2.2 fs le_rfl).2
        simp only [jsize, encVal, List.length_cons]
        omega
    · intro xs hxs
      cases xs with
      | nil => simp [esize, encElemsTail, encElemsFirst]
      | cons x xs2 =>
        have hp1 := jsize_pos x
        have hp2 := esize_pos xs2
        have hlt1 : jsize x < k := by
          simp only [esize] at hxs
          omega
        have hlt2 : esize xs2 < k := by
          simp only [esize] at hxs
          omega
        have hbx := (IH (jsize x) hlt1).1 x le_rfl
        have hbxs := ((IH (esize xs2) hlt2).2.1 xs2 le_rfl).1
        simp only [esize, encElemsTail, encElemsFirst, List.length_cons,
          List.length_append]
        omega
    · intro fs hfs
      cases fs with
      | nil => simp [msize, encMembersTail, encMembersFirst]
      | cons kv fs2 =>
        have hp1 := jsize_pos kv.2
        have hp2 := msize_pos fs2
        have hlt1 : jsize kv.2 < k := by
          simp only [msize] at hfs
          omega
        have hlt2 : msize fs2 < k := by
          simp only [msize] at hfs
          omega
        have hbv := (IH (jsize kv.2) hlt1).1 kv.2 le_rfl
        have hbfs := ((IH (msize fs2) hlt2).2.2 fs2 le_rfl).1
        obtain ⟨kk, vv⟩ := kv
        simp only [msize, encMembersTail, encMembersFirst, encMember,
          List.length_cons, List.length_append] at hbv hbfs ⊢
        omega

/-- Step equation: `parseVal` at `null`. -/
theorem parseVal_null (f : Nat) (r : List Char) :
    parseVal (f + 1) ('n' :: 'u' :: 'l' :: 'l' :: r) = some (.null, r) := by
  simp only [parseVal, parsersAt]
  rfl

/-- Step equation: `parseVal` at `true`. -/
theorem parseVal_true (f : Nat) (r : List Char) :
    parseVal (f + 1) ('t' :: 'r' :: 'u' :: 'e' :: r) = some (.bool true, r) := by
  simp only [parseVal, parsersAt]
  rfl

/-- Step equation: `parseVal` at `false`. -/
theorem parseVal_false (f : Nat) (r : List Char) :
    parseVal (f + 1) ('f' :: 'a' :: 'l' :: 's' :: 'e' :: r) = some (.bool false, r) := by
  simp only [parseVal, parsersAt]
  rfl

/-- Step equation: `parseVal` at a minus sign. -/
theorem parseVal_neg (f : Nat) (rest : List Char) :
    parseVal (f + 1) ('-' :: rest) =
      (match rest with
      | c2 :: _ =>
        if isDigitChar c2 then
          let p := parseNatAcc rest 0
          some (.num (-(Int.ofNat p.1)), p.2)
        else none
      | [] => none) := by
  simp only [parseVal, parsersAt]
  rfl

/-- Step equation: `parseVal` at an opening bracket. -/
theorem parseVal_lbrack (f : Nat) (rest : List Char) :
    parseVal (f + 1) ('[' :: rest) =
      (parseElemsFirst f rest).map (fun p => (.arr p.1, p.2)) := by
  simp only [parseVal, parsersAt]
  rfl

/-- Step equation: `parseVal` at an opening brace. -/
theorem parseVal_obj (f : Nat) (rest : List Char) :
    parseVal (f + 1) (lbrace :: rest) =
      (parseMembersFirst f rest).map (fun p => (.obj p.1, p.2)) := by
  simp only [parseVal, parsersAt]
  rfl

/-- Step equation: `parseVal` at an opening quote. -/
theorem parseVal_quote (f : Nat) (rest : List Char) :
    parseVal (f + 1) (quoteChar :: rest) =
      (parseStrBody rest).map (fun p => (.str (String.mk p.1), p.2)) := by
  simp only [parseVal, parsersAt]
  rfl

/-- A decimal digit is none of the value-leading delimiter characters. -/
theorem digit_ne_delims (c : Char) (h : isDigitChar c = true) :
    ¬ c = 'n' ∧ ¬ c = 't' ∧ ¬ c = 'f' ∧ ¬ c = '-' ∧ ¬ c = '[' ∧
    ¬ c = lbrace ∧ ¬ c = quoteChar := by
  refine ⟨?_, ?_, ?_, ?_, ?_, ?_, ?_⟩ <;>
    intro e <;> rw [e] at h <;> exact absurd h (by decide)

/-- Step equation: `parseVal` at a decimal digit. -/
theorem parseVal_digit (f : Nat) (c : Char) (rest : List Char)
    (h : isDigitChar c = true) :
    parseVal (f + 1) (c :: rest) =
      some (.num (Int.ofNat (parseNatAcc (c :: rest) 0).1),
        (parseNatAcc (c :: rest) 0).2) := by
  obtain ⟨h1, h2, h3, h4, h5, h6, h7⟩ := digit_ne_delims c h
  simp only [parseVal, parsersAt, stepParsers]
  rw [if_neg h1, if_neg h2, if_neg h3, if_neg h4, if_neg h5, if_neg h6,
    if_neg h7, if_pos h]

/-- Step equation: `parseElemsFirst`. -/
theorem parseElemsFirst_succ (f : Nat) (c : Char) (rest : List Char) :
    parseElemsFirst (f + 1) (c :: rest) =
      (if c = ']' then some ([], rest)
      else
        match parseVal f (c :: rest) with
        | none => none
        | some (j, r) =>
          match parseElemsTail f r with
          | none => none
          | some (xs, r2) => some (j :: xs, r2)) := by
  simp only [parseElemsFirst, parsersAt]
  rfl

/-- Step equation: `parseElemsTail`. -/
theorem parseElemsTail_succ (f : Nat) (c : Char) (rest : List Char) :
    parseElemsTail (f + 1) (c :: rest) =
      (if c = ']' then some ([], rest)
      else if c = ',' then
        match parseVal f rest with
        | none => none
        | some (j, r) =>
          match parseElemsTail f r with
          | none => none
          | some (xs, r2) => some (j :: xs, r2)
      else none) := by
  simp only [parseElemsTail, parsersAt]
  rfl

/-- Step equation: `parseMemberFrom`. -/
theorem parseMemberFrom_succ (f : Nat) (c : Char) (rest : List Char) :
    parseMemberFrom (f + 1) (c :: rest) =
      (if c = quoteChar then
        match parseStrBody rest with
        | none => none
        | some (k, r) =>
          match r with
          | ':' :: r2 =>
            match parseVal f r2 with
            | none => none
            | some (v, r3) => some ((String.mk k, v), r3)
          | _ => none
      else none) := by
  simp only [parseMemberFrom, parsersAt]
  rfl

/-- Step equation: `parseMembersFirst`. -/
theorem parseMembersFirst_succ (f : Nat) (c : Char) (rest : List Char) :
    parseMembersFirst (f + 1) (c :: rest) =
      (if c = rbrace then some ([], rest)
      else
        match parseMemberFrom f (c :: rest) with
        | none => none
        | some (kv, r) =>
          match parseMembersTail f r with
          | none => none
          | some (fs, r2) => some (kv :: fs, r2)) := by
  simp only [parseMembersFirst, parsersAt]
  rfl

/-- Step equation: `parseMembersTail`. -/
theorem parseMembersTail_succ (f : Nat) (c : Char) (rest : List Char) :
    parseMembersTail (f + 1) (c :: rest) =
      (if c = rbrace then some ([], rest)
      else if c = ',' then
        match parseMemberFrom f rest with
        | none => none
        | some (kv, r) =>
          match parseMembersTail f r with
          | none => none
          | some (fs, r2) => some (kv :: fs, r2)
      else none) := by
  simp only [parseMembersTail, parsersAt]
  rfl

/-- What follows an element inside an array never starts with a digit. -/
theorem headNotDigit_encElemsTail (xs : List Json) (r : List Char) :
    headNotDigit (encElemsTail xs ++ r) := by
  cases xs with
  | nil => exact (by decide : isDigitChar ']' = false)
  | cons x xs2 => exact (by decide : isDigitChar ',' = false)

/-- What follows a member value inside an object never starts with a
digit. -/
theorem headNotDigit_encMembersTail (fs : List (String × Json)) (r : List Char) :
    headNotDigit (encMembersTail fs ++ r) := by
  cases fs with
  | nil => exact (by decide : isDigitChar rbrace = false)
  | cons kv fs2 => exact (by decide : isDigitChar ',' = false)

/-- A decimal digit is none of the closing/separator delimiters. -/
theorem digit_ne_closers (c : Char) (h : isDigitChar c = true) :
    ¬ c = ']' ∧ ¬ c = ',' ∧ ¬ c = rbrace ∧ ¬ c = ':' := by
  refine ⟨?_, ?_, ?_, ?_⟩ <;>
    intro e <;> rw [e] at h <;> exact absurd h (by decide)

/-- An encoded value starts with a character that is not a closing or
separator delimiter. -/
theorem encVal_head (j : Json) : ∃ c cs, encVal j = c :: cs ∧
    ¬ c = ']' ∧ ¬ c = ',' ∧ ¬ c = rbrace ∧ ¬ c = ':' := by
  cases j with
  | null =>
    exact ⟨'n', ['u', 'l', 'l'], by simp [encVal, kwNull], by decide, by decide, by decide,
      by decide⟩
  | bool b =>
    cases b with
    | true =>
      exact ⟨'t', ['r', 'u', 'e'], by simp [encVal, kwTrue], by decide, by decide, by decide,
        by decide⟩
    | false =>
      exact ⟨'f', ['a', 'l', 's', 'e'], by simp [encVal, kwFalse], by decide, by decide,
        by decide, by decide⟩
  | num i =>
    cases i with
    | ofNat n =>
      cases hd : natDigits n with
      | nil => exact absurd hd (natDigits_ne_nil n)
      | cons d ds =>
        have hdig : isDigitChar d = true := natDigits_all_digits n d (by rw [hd]; simp)
        obtain ⟨h1, h2, h3, h4⟩ := digit_ne_closers d hdig
        exact ⟨d, ds, by simp [encVal, intChars, hd], h1, h2, h3, h4⟩
    | negSucc m =>
      exact ⟨'-', natDigits (m + 1), by simp [encVal, intChars], by decide, by decide,
        by decide, by decide⟩
  | str s =>
    exact ⟨quoteChar, escStr s.data ++ [quoteChar], by simp [encVal], by decide, by decide,
      by decide, by decide⟩
  | arr xs =>
    exact ⟨'[', encElemsFirst xs, by simp [encVal], by decide, by decide, by decide,
      by decide⟩
  | obj fs =>
    exact ⟨lbrace, encMembersFirst fs, by simp [encVal], by decide, by decide, by decide,
      by decide⟩

/-- Round trip of the JSON grammar: parsing an encoded value (or element
list, member, member list) with enough fuel recovers it exactly, leaving
the continuation untouched. -/
theorem parse_encAll : ∀ fuel : Nat,
    (∀ j rest, jsize j ≤ fuel → headNotDigit rest →
      parseVal fuel (encVal j ++ rest) = some (j, rest)) ∧
    (∀ xs rest, esize xs ≤ fuel →
      parseElemsFirst fuel (encElemsFirst xs ++ rest) = some (xs, rest)) ∧
    (∀ xs rest, esize xs ≤ fuel →
      parseElemsTail fuel (encElemsTail xs ++ rest) = some (xs, rest)) ∧
    (∀ kv rest, 1 + jsize (Prod.snd kv) ≤ fuel → headNotDigit rest →
      parseMemberFrom fuel (encMember kv ++ rest) = some (kv, rest)) ∧
    (∀ fs rest, msize fs ≤ fuel →
      parseMembersFirst fuel (encMembersFirst fs ++ rest) = some (fs, rest)) ∧
    (∀ fs rest, msize fs ≤ fuel →
      parseMembersTail fuel (encMembersTail fs ++ rest) = some (fs, rest)) := by
  intro fuel
  induction fuel using Nat.strong_induction_on with
  | _ fuel IH =>
    cases fuel with
    | zero =>
      refine ⟨?_, ?_, ?_, ?_, ?_, ?_⟩
      · intro j rest hsz _; have := jsize_pos j; omega
      · intro xs rest hsz; have := esize_pos xs; omega
      · intro xs rest hsz; have := esize_pos xs; omega
      · intro kv rest hsz _; have := jsize_pos kv.2; omega
      · intro fs rest hsz; have := msize_pos fs; omega
      · intro fs rest hsz; have := msize_pos fs; omega
    | succ f =>
      have IHf := IH f (by omega)
      refine ⟨?_, ?_, ?_, ?_, ?_, ?_⟩
      · -- values
        intro j rest hsz hnd
        cases j with
        | null =>
          have hshape : encVal .null ++ rest = 'n' :: 'u' :: 'l' :: 'l' :: rest := by
            simp [encVal, kwNull]
          rw [hshape, parseVal_null]
        | bool b =>
          cases b with
          | true =>
            have hshape : encVal (.bool true) ++ rest =
                't' :: 'r' :: 'u' :: 'e' :: rest := by simp [encVal, kwTrue]
            rw [hshape, parseVal_true]
          | false =>
            have hshape : encVal (.bool false) ++ rest =
                'f' :: 'a' :: 'l' :: 's' :: 'e' :: rest := by simp [encVal, kwFalse]
            rw [hshape, parseVal_false]
        | num i =>
          cases i with
          | ofNat n =>
            cases hd : natDigits n with
            | nil => exact absurd hd (natDigits_ne_nil n)
            | cons d ds =>
              have hdig : isDigitChar d = true :=
                natDigits_all_digits n d (by rw [hd]; simp)
              have hshape : encVal (.num (.ofNat n)) ++ rest = d :: (ds ++ rest) := by
                simp [encVal, intChars, hd]
              have hp : parseNatAcc (d :: (ds ++ rest)) 0 = (n, rest) := by
                have hpd := parse_natDigits n rest hnd
                rw [hd] at hpd
                simpa using hpd
              rw [hshape, parseVal_digit f d (ds ++ rest) hdig, hp]
          | negSucc m =>
            cases hd : natDigits (m + 1) with
            | nil => exact absurd hd (natDigits_ne_nil (m + 1))
            | cons d ds =>
              have hdig : isDigitChar d = true :=
                natDigits_all_digits (m + 1) d (by rw [hd]; simp)
              have hshape : encVal (.num (.negSucc m)) ++ rest =
                  '-' :: (d :: (ds ++ rest)) := by
                simp [encVal, intChars, hd]
              have hp : parseNatAcc (d :: (ds ++ rest)) 0 = (m + 1, rest) := by
                have hpd := parse_natDigits (m + 1) rest hnd
                rw [hd] at hpd
                simpa using hpd
              rw [hshape, parseVal_neg]
              simp only [hdig, if_true, hp]
              have hneg : -(Int.ofNat (m + 1)) = Int.negSucc m := by
                rw [Int.negSucc_eq]
                simp
              rw [hneg]
        | str s =>
          have hshape : encVal (.str s) ++ rest =
              quoteChar :: (escStr s.data ++ (quoteChar :: rest)) := by
            simp [encVal]
          rw [hshape, parseVal_quote, parseStrBody_escStr]
          rfl
        | arr xs =>
          have hb : esize xs ≤ f := by
            simp only [jsize] at hsz
            omega
          have hshape : encVal (.arr xs) ++ rest =
              '[' :: (encElemsFirst xs ++ rest) := by simp [encVal]
          rw [hshape, parseVal_lbrack, IHf.2.1 xs rest hb]
          rfl
        | obj fs =>
          have hb : msize fs ≤ f := by
            simp only [jsize] at hsz
            omega
          have hshape : encVal (.obj fs) ++ rest =
              lbrace :: (encMembersFirst fs ++ rest) := by simp [encVal]
          rw [hshape, parseVal_obj, IHf.2.2.2.2.1 fs rest hb]
          rfl
      · -- array elements, first position
        intro xs rest hsz
        cases xs with
        | nil =>
          have hshape : encElemsFirst ([] : List Json) ++ rest = ']' :: rest := by
            simp [encElemsFirst]
          rw [hshape, parseElemsFirst_succ, if_pos rfl]
        | cons x xs2 =>
          have hb1 : jsize x ≤ f := by
            have := esize_pos xs2
            simp only [esize] at hsz
            omega
          have hb2 : esize xs2 ≤ f := by
            have := jsize_pos x
            simp only [esize] at hsz
            omega
          have hA := IHf.1 x (encElemsTail xs2 ++ rest) hb1
            (headNotDigit_encElemsTail xs2 rest)
          have hC := IHf.2.2.1 xs2 rest hb2
          obtain ⟨c0, cs0, henc, hno⟩ := encVal_head x
          rw [henc, List.cons_append] at hA
          have hshape : encElemsFirst (x :: xs2) ++ rest =
              c0 :: (cs0 ++ (encElemsTail xs2 ++ rest)) := by
            simp [encElemsFirst, henc]
          rw [hshape, parseElemsFirst_succ, if_neg hno.1]
          simp only [hA, hC]
      · -- array elements, after an element
        intro xs rest hsz
        cases xs with
        | nil =>
          have hshape : encElemsTail ([] : List Json) ++ rest = ']' :: rest := by
            simp [encElemsTail]
          rw [hshape, parseElemsTail_succ, if_pos rfl]
        | cons x xs2 =>
          have hb1 : jsize x ≤ f := by
            have := esize_pos xs2
            simp only [esize] at hsz
            omega
          have hb2 : esize xs2 ≤ f := by
            have := jsize_pos x
            simp only [esize] at hsz
            omega
          have hA := IHf.1 x (encElemsTail xs2 ++ rest) hb1
            (headNotDigit_encElemsTail xs2 rest)
          have hC := IHf.2.2.1 xs2 rest hb2
          have hshape : encElemsTail (x :: xs2) ++ rest =
              ',' :: (encVal x ++ (encElemsTail xs2 ++ rest)) := by
            simp [encElemsTail]
          rw [hshape, parseElemsTail_succ, if_neg (by decide), if_pos rfl]
          simp only [hA, hC]
      · -- one object member
        intro kv rest hsz hnd
        obtain ⟨k, v⟩ := kv
        have hb : jsize v ≤ f := by
          simp only [Prod.snd] at hsz
          omega
        have hA := IHf.1 v rest hb hnd
        have hshape : encMember (k, v) ++ rest =
            quoteChar :: (escStr k.data ++ (quoteChar :: (':' :: (encVal v ++ rest)))) := by
          simp [encMember]
        rw [hshape, parseMemberFrom_succ, if_pos rfl, parseStrBody_escStr]
        simp only [hA]
      · -- object members, first position
        intro fs rest hsz
        cases fs with
        | nil =>
          have hshape : encMembersFirst ([] : List (String × Json)) ++ rest =
              rbrace :: rest := by simp [encMembersFirst]
          rw [hshape, parseMembersFirst_succ, if_pos rfl]
        | cons kv fs2 =>
          have hb1 : 1 + jsize kv.2 ≤ f := by
            have := msize_pos fs2
            simp only [msize] at hsz
            omega
          have hb2 : msize fs2 ≤ f := by
            have := jsize_pos kv.2
            simp only [msize] at hsz
            omega
          have hD := IHf.2.2.2.1 kv (encMembersTail fs2 ++ rest) hb1
            (headNotDigit_encMembersTail fs2 rest)
          have hF := IHf.2.2.2.2.2 fs2 rest hb2
          obtain ⟨k, v⟩ := kv
          have henc : encMember (k, v) ++ (encMembersTail fs2 ++ rest) =
              quoteChar :: (escStr k.data ++
                (quoteChar :: (':' :: (encVal v ++ (encMembersTail fs2 ++ rest))))) := by
            simp [encMember]
          rw [henc] at hD
          have hshape : encMembersFirst ((k, v) :: fs2) ++ rest =
              quoteChar :: (escStr k.data ++
                (quoteChar :: (':' :: (encVal v ++ (encMembersTail fs2 ++ rest))))) := by
            simp [encMembersFirst, encMember]
          rw [hshape, parseMembersFirst_succ, if_neg (by decide)]
          rw [← hshape]  -- restore the member-from argument shape
          have hshape2 : encMembersFirst ((k, v) :: fs2) ++ rest =
              quoteChar :: ((escStr k.data ++
                (quoteChar :: (':' :: (encVal v ++ (encMembersTail fs2 ++ rest)))))) := hshape
          rw [hshape2]
          simp only [hD, hF]
      · -- object members, after a member
        intro fs rest hsz
        cases fs with
        | nil =>
          have hshape : encMembersTail ([] : List (String × Json)) ++ rest =
              rbrace :: rest := by simp [encMembersTail]
          rw [hshape, parseMembersTail_succ, if_pos rfl]
        | cons kv fs2 =>
          have hb1 : 1 + jsize kv.2 ≤ f := by
            have := msize_pos fs2
            simp only [msize] at hsz
            omega
          have hb2 : msize fs2 ≤ f := by
            have := jsize_pos kv.2
            simp only [msize] at hsz
            omega
          have hD := IHf.2.2.2.1 kv (encMembersTail fs2 ++ rest) hb1
            (headNotDigit_encMembersTail fs2 rest)
          have hF := IHf.2.2.2.2.2 fs2 rest hb2
          have hshape : encMembersTail (kv :: fs2) ++ rest =
              ',' :: (encMember kv ++ (encMembersTail fs2 ++ rest)) := by
            simp [encMembersTail]
          rw [hshape, parseMembersTail_succ, if_neg (by decide), if_pos rfl]
          simp only [hD, hF]

/-- C3: the envelope codec round-trips - for every JSON-representable
payload `P`, `_deserialize (_serialize P) = P` - and `_serialize` raises
the serialization `TypeError` (never silently coercing) on a value that
is not JSON-representable. -/
theorem serialize_deserialize_round_trip :
    (∀ j : Json, _serialize (PyData.jsonData j) = .ok (dumps j) ∧
      _deserialize (dumps j) = .ok j) ∧
    (∀ descr : String,
      _serialize (PyData.notRepresentable descr) = .error .typeError) := by
  constructor
  · intro j
    refine ⟨rfl, ?_⟩
    show loads (dumps j) = .ok j
    unfold loads dumps
    have hdata : (String.mk (encVal j)).data = encVal j := rfl
    rw [hdata]
    have hsz : jsize j ≤ 2 * (encVal j).length + 1 := by
      have := (enc_size_bound (jsize j)).1 j le_rfl
      omega
    have hrt := (parse_encAll (2 * (encVal j).length + 1)).1 j [] hsz trivial
    rw [List.append_nil] at hrt
    rw [hrt]
  · intro descr
    rfl

end OsloZmq
